import Mathlib

/-!
Verification of the pyspread cell-grid core against its specification.

The development shallowly embeds the relevant parts of the repository:

* `src/src/lib/string_helpers.py` (`quote`, `wrap_text`),
* `src/pyspread/grid.py` (`GridTableModel.insertRows` / `insertColumns` /
  `removeRows` / `removeColumns` / `reset`, `Grid._refresh_frozen_cell`),
* `src/pyspread/workflows.py` (`Workflows.delete`, `Workflows.edit_copy`,
  `Workflows._paste_to_current`, `Workflows.edit_resize`).

Python strings are embedded as `List Char`, dictionaries as association
lists, and the backend classes that the repository imports from
`pyspread.model` and `pyspread.lib.selection` (which are not part of the
sources at hand) are modelled from the specification, as marked in the
corresponding doc comments.
-/

set_option autoImplicit false

/-- A Python string, embedded as its list of characters. -/
abbrev PyStr := List Char

/-- The single-quote character, `chr 39`. -/
def squoteC : Char := Char.ofNat 39

/-- The double-quote character, `chr 34`. -/
def dquoteC : Char := Char.ofNat 34

/-- The backslash character, `chr 92`. -/
def backslashC : Char := Char.ofNat 92

/-- The form-feed character `"\u000C"`, `chr 12`. -/
def ffC : Char := Char.ofNat 12

/-- Python `str.split(sep)` for a single-character separator.
`"".split(sep)` is `[""]`, hence the base case. -/
def splitChar (c : Char) : PyStr → List PyStr
  | [] => [[]]
  | a :: rest =>
    let r := splitChar c rest
    if a = c then
      [] :: r
    else
      match r with
      | [] => [[a]]
      | x :: xs => (a :: x) :: xs

/-- Python `sep.join(parts)` for a single-character separator. -/
def joinChar (c : Char) : List PyStr → PyStr
  | [] => []
  | [x] => x
  | x :: y :: xs => x ++ c :: joinChar c (y :: xs)

/-- Python `s.replace(a, b)` for single characters: a character-wise map. -/
def replaceChar (a b : Char) (s : PyStr) : PyStr :=
  s.map (fun ch => if ch = a then b else ch)

theorem splitChar_no_sep {c : Char} {s : PyStr} (h : c ∉ s) :
    splitChar c s = [s] := by
  induction s with
  | nil => rfl
  | cons a rest ih =>
    simp only [List.mem_cons, not_or] at h
    rw [splitChar, ih h.2]
    simp [Ne.symm h.1]

theorem splitChar_append {c : Char} {s t : PyStr} (h : c ∉ s) :
    splitChar c (s ++ c :: t) = s :: splitChar c t := by
  induction s with
  | nil => simp [splitChar]
  | cons a rest ih =>
    simp only [List.mem_cons, not_or] at h
    rw [List.cons_append, splitChar, ih h.2]
    simp [Ne.symm h.1]

/-- Splitting is a left inverse of joining when no part contains the
separator and the part list is non-empty. -/
theorem splitChar_joinChar {c : Char} {xss : List PyStr} (hne : xss ≠ [])
    (h : ∀ xs ∈ xss, c ∉ xs) :
    splitChar c (joinChar c xss) = xss := by
  induction xss with
  | nil => exact absurd rfl hne
  | cons x xs ih =>
    match xs with
    | [] =>
      rw [joinChar, splitChar_no_sep (h x (List.mem_cons_self x []))]
    | y :: ys =>
      rw [joinChar, splitChar_append (h x (List.mem_cons_self x _)),
        ih (List.cons_ne_nil y ys)]
      intro xs hxs
      exact h xs (List.mem_cons_of_mem x hxs)

theorem replaceChar_leftInverse {a b : Char} {s : PyStr}
    (h : b ∉ s) : replaceChar b a (replaceChar a b s) = s := by
  induction s with
  | nil => rfl
  | cons x rest ih =>
    simp only [List.mem_cons, not_or] at h
    simp only [replaceChar, List.map_cons, List.map_map] at *
    rw [ih h.2]
    by_cases hx : x = a
    · simp [hx]
    · simp [hx, Ne.symm h.1]

theorem mem_replaceChar {a b x : Char} {s : PyStr} (hx : x ∈ replaceChar a b s) :
    (x ∈ s ∧ x ≠ a) ∨ x = b := by
  rcases List.mem_map.mp hx with ⟨y, hy, hyx⟩
  by_cases hya : y = a
  · right
    rw [← hyx, hya]
    simp
  · left
    simp only [hya, if_false] at hyx
    exact ⟨hyx ▸ hy, hyx ▸ hya⟩

/-! ## string_helpers (`src/src/lib/string_helpers.py`) -/

/-- The whitespace characters removed by Python `str.strip()` (the ASCII
ones; `chr 11` is the vertical tab, `chr 13` the carriage return). -/
def isPySpace (c : Char) : Bool :=
  c = ' ' || c = '\t' || c = '\n' || c = Char.ofNat 13 || c = Char.ofNat 11
    || c = ffC

/-- Python `str.strip()`: remove leading and trailing whitespace. -/
def pyStrip (s : PyStr) : PyStr :=
  ((s.dropWhile isPySpace).reverse.dropWhile isPySpace).reverse

theorem pyStrip_eq_self {s : PyStr} {a b : Char}
    (h1 : s.head? = some a) (h2 : s.getLast? = some b)
    (ha : isPySpace a = false) (hb : isPySpace b = false) : pyStrip s = s := by
  unfold pyStrip
  cases s with
  | nil => simp at h1
  | cons x m =>
    simp only [List.head?_cons, Option.some.injEq] at h1
    have hax : isPySpace x = false := by rw [h1]; exact ha
    rw [List.dropWhile_cons]
    simp only [hax, Bool.false_eq_true, if_false]
    have hrev : (x :: m).reverse.head? = some b := by
      rw [List.head?_reverse]
      exact h2
    cases hr : (x :: m).reverse with
    | nil => simp at hr
    | cons y t =>
      rw [hr] at hrev
      simp only [List.head?_cons, Option.some.injEq] at hrev
      have hby : isPySpace y = false := by rw [hrev]; exact hb
      rw [List.dropWhile_cons]
      simp only [hby, Bool.false_eq_true, if_false]
      rw [← hr, List.reverse_reverse]

/-- A lower-case hexadecimal digit, as used by Python `repr` escapes. -/
def hexDigitC (n : Nat) : Char :=
  if n < 10 then Char.ofNat (48 + n) else Char.ofNat (87 + n)

/-- The delimiter Python `repr` picks for a string: a single quote, unless
the string contains a single quote and no double quote. -/
def reprQuoteChar (s : PyStr) : Char :=
  if squoteC ∈ s ∧ dquoteC ∉ s then dquoteC else squoteC

/-- The escape Python `repr` applies to one character, for delimiter `q`. -/
def pyReprEscape (q c : Char) : PyStr :=
  if c = backslashC then [backslashC, backslashC]
  else if c = q then [backslashC, q]
  else if c = '\n' then [backslashC, 'n']
  else if c = Char.ofNat 13 then [backslashC, 'r']
  else if c = '\t' then [backslashC, 't']
  else if c.toNat < 32 ∨ c.toNat = 127 then
    [backslashC, 'x', hexDigitC (c.toNat / 16), hexDigitC (c.toNat % 16)]
  else [c]

/-- Python `repr` of a string: the chosen delimiter, the escaped
characters, and the delimiter again. -/
def pyRepr (s : PyStr) : PyStr :=
  reprQuoteChar s ::
    ((s.map (pyReprEscape (reprQuoteChar s))).flatten ++ [reprQuoteChar s])

theorem reprQuoteChar_cases (s : PyStr) :
    reprQuoteChar s = squoteC ∨ reprQuoteChar s = dquoteC := by
  unfold reprQuoteChar
  split
  · exact Or.inr rfl
  · exact Or.inl rfl

theorem pyRepr_head (s : PyStr) : (pyRepr s).head? = some (reprQuoteChar s) :=
  rfl

theorem pyRepr_getLast (s : PyStr) :
    (pyRepr s).getLast? = some (reprQuoteChar s) := by
  unfold pyRepr
  rw [← List.cons_append, List.getLast?_concat]

/-- A Python value passed to `quote`: a string, `None`, or any non-string
object (represented by an opaque tag). -/
inductive PyObj where
  | str (s : PyStr)
  | pyNone
  | other (tag : Nat)
deriving DecidableEq

/-- The `starts_and_ends` list of `quote`.  Its elements are pairs of
strings; the two `u`-prefixed entries can never match a pair of
single-character strings. -/
def startsAndEnds : List (PyStr × PyStr) :=
  [([squoteC], [squoteC]), ([dquoteC], [dquoteC]),
   (['u', squoteC], [squoteC]), (['u', dquoteC], [dquoteC])]

/-- `quote` from `string_helpers.py`: non-strings (including `None`) are
returned unchanged; a string is stripped, and if non-empty with a
first/last character pair not in `starts_and_ends` it is replaced by its
`repr`, otherwise the stripped string is returned.  `headI`/`getLastI`
embed the Python subscripts `code[0]` and `code[-1]`, which are reached
only when the string is non-empty. -/
def quote (code : PyObj) : PyObj :=
  match code with
  | .pyNone => .pyNone
  | .other t => .other t
  | .str s0 =>
    let s := pyStrip s0
    if s ≠ [] ∧ ([s.headI], [s.getLastI]) ∉ startsAndEnds then
      .str (pyRepr s)
    else
      .str s

theorem head?_eq_headI {l : List Char} (h : l ≠ []) :
    l.head? = some l.headI := by
  cases l with
  | nil => exact absurd rfl h
  | cons x m => rfl

theorem getLast?_eq_getLastI {l : List Char} (h : l ≠ []) :
    l.getLast? = some l.getLastI := by
  cases hy : l.getLast? with
  | none =>
    rw [List.getLast?_eq_none_iff] at hy
    exact absurd hy h
  | some y =>
    rw [List.getLastI_eq_getLast?, hy]

theorem mem_startsAndEnds_not_space {h l : Char}
    (hp : ([h], [l]) ∈ startsAndEnds) :
    isPySpace h = false ∧ isPySpace l = false := by
  simp only [startsAndEnds, List.mem_cons, List.not_mem_nil, or_false,
    Prod.mk.injEq] at hp
  rcases hp with ⟨hph, hpl⟩ | ⟨hph, hpl⟩ | ⟨hph, _⟩ | ⟨hph, _⟩
  · simp only [List.cons.injEq, and_true] at hph hpl
    rw [hph, hpl]
    decide
  · simp only [List.cons.injEq, and_true] at hph hpl
    rw [hph, hpl]
    decide
  · simp at hph
  · simp at hph

theorem quote_str_of_pair {s : PyStr} (hne : s ≠ [])
    (hp : ([s.headI], [s.getLastI]) ∈ startsAndEnds) :
    quote (.str s) = .str s := by
  have hsq := mem_startsAndEnds_not_space hp
  have hs : pyStrip s = s :=
    pyStrip_eq_self (head?_eq_headI hne) (getLast?_eq_getLastI hne) hsq.1
      hsq.2
  show (if pyStrip s ≠ [] ∧
      ([(pyStrip s).headI], [(pyStrip s).getLastI]) ∉ startsAndEnds then
    PyObj.str (pyRepr (pyStrip s)) else PyObj.str (pyStrip s)) = .str s
  rw [hs, if_neg (fun hc => hc.2 hp)]

theorem quote_str_pyRepr (s : PyStr) :
    quote (.str (pyRepr s)) = .str (pyRepr s) := by
  refine quote_str_of_pair (List.cons_ne_nil _ _) ?_
  have hl : (pyRepr s).getLastI = reprQuoteChar s := by
    rw [List.getLastI_eq_getLast?, pyRepr_getLast]
  have hh : (pyRepr s).headI = reprQuoteChar s := rfl
  rw [hh, hl]
  rcases reprQuoteChar_cases s with h | h <;> rw [h] <;> decide

/-- C10: `quote` is idempotent on every input — strings, `None`, and
non-string values alike. -/
theorem quote_idempotent (x : PyObj) : quote (quote x) = quote x := by
  cases x with
  | pyNone => rfl
  | other t => rfl
  | str s0 =>
    by_cases hcond : pyStrip s0 ≠ [] ∧
        ([(pyStrip s0).headI], [(pyStrip s0).getLastI]) ∉ startsAndEnds
    · have h1 : quote (.str s0) = .str (pyRepr (pyStrip s0)) := by
        show (if pyStrip s0 ≠ [] ∧ _ ∉ startsAndEnds then
          PyObj.str (pyRepr (pyStrip s0)) else PyObj.str (pyStrip s0)) = _
        rw [if_pos hcond]
      rw [h1, quote_str_pyRepr (pyStrip s0)]
    · have h1 : quote (.str s0) = .str (pyStrip s0) := by
        show (if pyStrip s0 ≠ [] ∧ _ ∉ startsAndEnds then
          PyObj.str (pyRepr (pyStrip s0)) else PyObj.str (pyStrip s0)) = _
        rw [if_neg hcond]
      rw [h1]
      by_cases hnil : pyStrip s0 = []
      · rw [hnil]
        decide
      · have hp : ([(pyStrip s0).headI], [(pyStrip s0).getLastI]) ∈
            startsAndEnds := by
          by_contra hq
          exact hcond ⟨hnil, hq⟩
        exact quote_str_of_pair hnil hp

/-- The `"..."` suffix appended by `wrap_text` when truncating. -/
def dot3 : PyStr := ['.', '.', '.']

/-- `wrap_text` from `string_helpers.py`.  `textwrap.wrap` is an external
stdlib collaborator, passed in as `wrapF` (text and width to list of
lines).  `text` is `none` for Python `None`; `maxlen = none` disables
truncation. -/
def wrap_text (wrapF : PyStr → Nat → List PyStr) (text : Option PyStr)
    (width : Nat) (maxlen : Option Nat) : Option PyStr :=
  match text with
  | none => none
  | some t =>
    let t2 :=
      match maxlen with
      | some m => if t.length > m then t.take m ++ dot3 else t
      | none => t
    some (joinChar '\n' (wrapF t2 width))

/-- C7: `wrap_text` returns `None` on `None`; with a maximum length and a
longer text it wraps the truncated text extended by `"..."` and joins the
lines with newlines; otherwise it wraps the full text. -/
theorem wrap_text_spec (wrapF : PyStr → Nat → List PyStr) (t : PyStr)
    (width m : Nat) (maxlen : Option Nat) :
    wrap_text wrapF none width maxlen = none ∧
    (t.length > m →
      wrap_text wrapF (some t) width (some m) =
        some (joinChar '\n' (wrapF (t.take m ++ dot3) width))) ∧
    (t.length ≤ m →
      wrap_text wrapF (some t) width (some m) =
        some (joinChar '\n' (wrapF t width))) ∧
    wrap_text wrapF (some t) width none =
      some (joinChar '\n' (wrapF t width)) := by
  refine ⟨rfl, ?_, ?_, rfl⟩
  · intro hgt
    simp only [wrap_text, hgt, if_pos]
  · intro hle
    have : ¬ t.length > m := Nat.not_lt.mpr hle
    simp only [wrap_text, this, if_neg, if_false]

/-- Witness for C7 at concrete inputs: the identity-like wrapper, text
`"abcd"`, maximum length 3. -/
theorem wrap_text_spec_witness :
    wrap_text (fun s _ => [s]) (some ['a', 'b', 'c', 'd']) 80 (some 3) =
      some ['a', 'b', 'c', '.', '.', '.'] := by
  have h :=
    (wrap_text_spec (fun s _ => [s]) ['a', 'b', 'c', 'd'] 80 3 none).2.1
      (by decide)
  rw [h]
  rfl

/-! ## Selection

Modelled from the spec (§3, §4.1): the repository imports `Selection` from
`pyspread.lib.selection`, which is not among the sources at hand.  A
selection is an ordered collection of block top-left corners, a parallel
collection of block bottom-right corners, row-index and column-index lists
(reserved whole-row/column selectors) and a set of individually selected
cells.  Coordinates are integers; shifts may produce negative coordinates.
-/

structure Selection where
  blockTl : List (Int × Int)
  blockBr : List (Int × Int)
  rows : List Int
  cols : List Int
  cells : List (Int × Int)
deriving DecidableEq

/-- Modelled from the spec: a coordinate is in the selection if it falls in
any block (blocks pair the two corner lists positionally) or appears in the
single-cell set or its row/column index is in the row/column-index lists. -/
def Selection.contains (sel : Selection) (cell : Int × Int) : Bool :=
  (sel.blockTl.zip sel.blockBr).any (fun p =>
    decide (p.1.1 ≤ cell.1 ∧ cell.1 ≤ p.2.1 ∧ p.1.2 ≤ cell.2 ∧ cell.2 ≤ p.2.2))
  || sel.cells.any (fun c0 => decide (c0 = cell))
  || sel.rows.any (fun r => decide (r = cell.1))
  || sel.cols.any (fun c0 => decide (c0 = cell.2))

/-- Modelled from the spec: `Shift` translates every block corner and every
single-cell coordinate by the delta; the reserved-but-unused row/column
selector lists are translated along their own axis in the same way, so that
the shifted selection is the translate of the original, as §8 requires for
all selections.  Negative results are permitted. -/
def Selection.shifted (sel : Selection) (dy dx : Int) : Selection where
  blockTl := sel.blockTl.map (fun p => (p.1 + dy, p.2 + dx))
  blockBr := sel.blockBr.map (fun p => (p.1 + dy, p.2 + dx))
  rows := sel.rows.map (fun r => r + dy)
  cols := sel.cols.map (fun c0 => c0 + dx)
  cells := sel.cells.map (fun p => (p.1 + dy, p.2 + dx))

/-- C6: shifting a selection by `(dy, dx)` translates its membership
predicate: the shifted selection contains `(r + dy, c + dx)` exactly when
the original selection contains `(r, c)`. -/
theorem selection_shifted_contains_iff (S : Selection) (dy dx r c : Int) :
    (S.shifted dy dx).contains (r + dy, c + dx) = S.contains (r, c) := by
  rw [Bool.eq_iff_iff]
  unfold Selection.contains Selection.shifted
  simp only [List.zip_map, List.any_map, Bool.or_eq_true, List.any_eq_true,
    decide_eq_true_eq, Function.comp, Prod.map]
  constructor
  · rintro (((⟨p, hp, h⟩ | ⟨q, hq, h⟩) | ⟨q, hq, h⟩) | ⟨q, hq, h⟩)
    · exact Or.inl (Or.inl (Or.inl ⟨p, hp, by omega⟩))
    · refine Or.inl (Or.inl (Or.inr ⟨q, hq, ?_⟩))
      simp only [Prod.mk.injEq] at h
      rw [Prod.ext_iff]
      omega
    · exact Or.inl (Or.inr ⟨q, hq, by omega⟩)
    · exact Or.inr ⟨q, hq, by omega⟩
  · rintro (((⟨p, hp, h⟩ | ⟨q, hq, h⟩) | ⟨q, hq, h⟩) | ⟨q, hq, h⟩)
    · exact Or.inl (Or.inl (Or.inl ⟨p, hp, by omega⟩))
    · refine Or.inl (Or.inl (Or.inr ⟨q, hq, ?_⟩))
      rw [Prod.ext_iff] at h
      simp only [Prod.mk.injEq]
      omega
    · exact Or.inl (Or.inr ⟨q, hq, by omega⟩)
    · exact Or.inr ⟨q, hq, by omega⟩

/-! ## Association lists

Python dictionaries are embedded as association lists with
remove-then-cons update, observed only through `alGet`. -/

/-- A cell coordinate `(row, column, table)`. -/
abbrev Key := Nat × Nat × Nat

def alGet {α β : Type} [DecidableEq α] (l : List (α × β)) (k : α) : Option β :=
  match l with
  | [] => none
  | (k0, v) :: rest => if k0 = k then some v else alGet rest k

def alSet {α β : Type} [DecidableEq α] (l : List (α × β)) (k : α) (v : β) :
    List (α × β) :=
  (k, v) :: l.filter (fun p => decide (p.1 ≠ k))

def alPop {α β : Type} [DecidableEq α] (l : List (α × β)) (k : α) :
    List (α × β) :=
  l.filter (fun p => decide (p.1 ≠ k))

theorem alGet_alSet_same {α β : Type} [DecidableEq α] (l : List (α × β))
    (k : α) (v : β) : alGet (alSet l k v) k = some v := by
  simp [alSet, alGet]

theorem alGet_filter {α β : Type} [DecidableEq α] (l : List (α × β))
    (q : α × β → Bool) (k : α) (hq : ∀ v, q (k, v) = true) :
    alGet (l.filter q) k = alGet l k := by
  induction l with
  | nil => rfl
  | cons p rest ih =>
    by_cases hk : p.1 = k
    · have : q p = true := by
        rw [show p = (k, p.2) from Prod.ext hk rfl]
        exact hq p.2
      rw [List.filter_cons, if_pos this]
      show alGet (p :: rest.filter q) k = alGet (p :: rest) k
      simp [alGet, hk]
    · rw [List.filter_cons]
      by_cases hqp : q p = true
      · rw [if_pos hqp]
        show alGet (p :: rest.filter q) k = alGet (p :: rest) k
        simp only [alGet]
        rw [if_neg hk, if_neg hk]
        exact ih
      · rw [if_neg hqp]
        have : alGet (p :: rest) k = alGet rest k := by
          simp only [alGet]
          rw [if_neg hk]
        rw [this]
        exact ih

theorem alGet_alSet_ne {α β : Type} [DecidableEq α] (l : List (α × β))
    (k k0 : α) (v : β) (h : k0 ≠ k) :
    alGet (alSet l k v) k0 = alGet l k0 := by
  show alGet ((k, v) :: l.filter _) k0 = alGet l k0
  simp only [alGet]
  rw [if_neg (Ne.symm h)]
  exact alGet_filter l _ k0 (fun _ => by simp [h])

theorem alGet_alPop_ne {α β : Type} [DecidableEq α] (l : List (α × β))
    (k k0 : α) (h : k0 ≠ k) : alGet (alPop l k) k0 = alGet l k0 :=
  alGet_filter l _ k0 (fun _ => by simp [h])

theorem alGet_mem {α β : Type} [DecidableEq α] {l : List (α × β)} {k : α}
    {v : β} (h : alGet l k = some v) : (k, v) ∈ l := by
  induction l with
  | nil => simp [alGet] at h
  | cons p rest ih =>
    simp only [alGet] at h
    by_cases hk : p.1 = k
    · rw [if_pos hk] at h
      have hp : p = (k, v) := Prod.ext hk (Option.some_inj.mp h)
      rw [← hp]
      exact List.mem_cons_self p rest
    · rw [if_neg hk] at h
      exact List.mem_cons_of_mem p (ih h)

theorem mem_alSet {α β : Type} [DecidableEq α] {l : List (α × β)} {k : α}
    {v : β} {p : α × β} (h : p ∈ alSet l k v) : p = (k, v) ∨ p ∈ l := by
  rw [alSet, List.mem_cons] at h
  rcases h with h | h
  · exact Or.inl h
  · exact Or.inr (List.mem_of_mem_filter h)

/-! ## Cell attributes

Modelled from the spec (§3, §4.2): the repository imports `CellAttributes`
from `pyspread.model`, which is not among the sources at hand.  The log is
an append-only ordered sequence of `(Selection, table, diff)` entries; the
effective attributes of a coordinate are the defaults overridden by the
diffs of every matching entry in log order; a point-query cache memoizes
the scan together with the log length it was computed at, and a
whole-table cache memoizes per-table views. -/

/-- The recognized cell attribute names (§3). -/
inductive AttrKey where
  | bgcolor | textcolor | textfont | pointsize | fontweight | fontstyle
  | underline | strikethrough | locked | angle | vertical_align
  | justification | renderer | merge_area | frozen | button_cell
  | bordercolor_bottom | bordercolor_right | borderwidth_bottom
  | borderwidth_right
deriving DecidableEq

/-- An attribute value: none, a boolean, a number, a string (also used for
the enum-like values), an RGB colour, or a merge area. -/
inductive AttrVal where
  | vNone
  | vBool (b : Bool)
  | vNat (n : Nat)
  | vStr (s : PyStr)
  | vRGB (r g b : Nat)
  | vArea (top left bottom right : Nat)
deriving DecidableEq

/-- Python truthiness of an attribute value, as used by
`if ...cell_attributes[key]["frozen"]:`. -/
def pyTruthy : AttrVal → Bool
  | .vNone => false
  | .vBool b => b
  | .vNat n => decide (n ≠ 0)
  | .vStr s => decide (s ≠ [])
  | .vRGB _ _ _ => true
  | .vArea _ _ _ _ => true

/-- The per-attribute defaults of §3. -/
def defaultAttrs : AttrKey → AttrVal
  | .fontweight => .vStr ("normal".toList)
  | .fontstyle => .vStr ("normal".toList)
  | .underline => .vBool false
  | .strikethrough => .vBool false
  | .locked => .vBool false
  | .angle => .vNat 0
  | .vertical_align => .vStr ("align_top".toList)
  | .justification => .vStr ("justify_left".toList)
  | .renderer => .vStr ("text".toList)
  | .frozen => .vBool false
  | .button_cell => .vBool false
  | .borderwidth_bottom => .vNat 0
  | .borderwidth_right => .vNat 0
  | _ => .vNone

/-- One cell-attribute log entry: `(Selection, table, diff)`. -/
structure AttrEntry where
  sel : Selection
  tab : Nat
  diff : List (AttrKey × AttrVal)

/-- Modelled from the spec: the effective attributes of a coordinate are
obtained by scanning the log in insertion order and applying the diff of
every entry whose table matches and whose selection contains the
coordinate, over the defaults; later entries win. -/
def effectiveAttrs (log : List AttrEntry) (key : Key) : AttrKey → AttrVal :=
  log.foldl
    (fun acc e =>
      if e.tab = key.2.2 ∧
          e.sel.contains ((key.1 : Int), (key.2.1 : Int)) = true then
        fun k => (alGet e.diff k).getD (acc k)
      else acc)
    defaultAttrs

/-- The `CellAttributes` state: the log plus the two memoization caches.
A point-cache entry records the log length at which it was computed. -/
structure CAState where
  log : List AttrEntry
  attrCache : List (Key × Nat × (AttrKey → AttrVal))
  tableCache : List (Nat × List (AttrKey × AttrVal))

/-- Modelled from the spec/upstream `CellAttributes.__getitem__`: use the
memoized result when its recorded log length is current, otherwise scan
the log and memoize the result in the point cache. -/
def caGet (ca : CAState) (key : Key) : (AttrKey → AttrVal) × CAState :=
  match alGet ca.attrCache key with
  | some (n, attrs) =>
    if n = ca.log.length then
      (attrs, ca)
    else
      let a := effectiveAttrs ca.log key
      (a, { ca with attrCache := alSet ca.attrCache key (ca.log.length, a) })
  | none =>
    let a := effectiveAttrs ca.log key
    (a, { ca with attrCache := alSet ca.attrCache key (ca.log.length, a) })

/-- A point cache is coherent when every entry recorded at the current log
length holds the attributes the log scan would produce. -/
def CacheCoherent (ca : CAState) : Prop :=
  ∀ k n a, (k, n, a) ∈ ca.attrCache → n = ca.log.length →
    a = effectiveAttrs ca.log k

theorem caGet_fst {ca : CAState} (key : Key) (h : CacheCoherent ca) :
    (caGet ca key).1 = effectiveAttrs ca.log key := by
  unfold caGet
  cases hg : alGet ca.attrCache key with
  | none => rfl
  | some p =>
    obtain ⟨n, attrs⟩ := p
    by_cases hn : n = ca.log.length
    · simp only [hn, if_pos]
      exact (h key n attrs (alGet_mem hg) hn).symm ▸ rfl
    · simp only [hn, if_neg, if_false]

theorem caGet_log (ca : CAState) (key : Key) : (caGet ca key).2.log = ca.log := by
  unfold caGet
  cases hg : alGet ca.attrCache key with
  | none => rfl
  | some p =>
    obtain ⟨n, attrs⟩ := p
    by_cases hn : n = ca.log.length
    · simp only [hn, if_pos]
    · simp only [hn, if_neg, if_false]

theorem caGet_coherent {ca : CAState} (key : Key) (h : CacheCoherent ca) :
    CacheCoherent (caGet ca key).2 := by
  unfold caGet
  cases hg : alGet ca.attrCache key with
  | none =>
    intro k n a hmem hn
    rcases mem_alSet hmem with he | he
    · simp only [Prod.mk.injEq] at he
      rw [he.2.2, he.1]
    · exact h k n a he hn
  | some p =>
    obtain ⟨n0, attrs0⟩ := p
    by_cases hn0 : n0 = ca.log.length
    · simp only [hn0, if_pos]
      exact h
    · simp only [hn0, if_neg, if_false]
      intro k n a hmem hn
      rcases mem_alSet hmem with he | he
      · simp only [Prod.mk.injEq] at he
        rw [he.2.2, he.1]
      · exact h k n a he hn

/-! ## The code array state

`CodeArray`/`DataArray` (imported by the sources from `pyspread.model`) are
modelled from the spec: a sparse cell store (`dict_grid`), the attribute
state, row heights and column widths, the macro text, the evaluation
result cache, the frozen-result cache, the user-assigned part of the
global execution namespace, and the shape.  `repr` on an int triple is
injective, so the `frozen_cache`, which Python keys by `repr(key)`, is
keyed by the coordinate itself. -/

/-- A cell evaluation result: a value or a captured exception (§9). -/
inductive Result where
  | val (s : PyStr)
  | err (s : PyStr)
deriving DecidableEq

structure CodeArrayState where
  cells : List (Key × PyStr)
  attrs : CAState
  rowHeights : List ((Nat × Nat) × Nat)
  colWidths : List ((Nat × Nat) × Nat)
  pyMacros : PyStr
  resultCache : List (Key × Result)
  frozenCache : List (Key × Result)
  userGlobals : List (PyStr × Result)
  shape : Nat × Nat × Nat

/-- The grid view state used by the workflows: the backing code array, the
currently displayed table, the current cell, the selection, and the
configured maximum shape from the settings. -/
structure GridState where
  codeArray : CodeArrayState
  table : Nat
  current : Key
  selection : Selection
  maxShape : Nat × Nat × Nat

/-- Modelled from the spec: membership `key in code_array` is a bounds test
against the shape. -/
def keyInGrid (shape : Nat × Nat × Nat) (k : Key) : Bool :=
  decide (k.1 < shape.1) && decide (k.2.1 < shape.2.1) &&
    decide (k.2.2 < shape.2.2)

/-- `GridTableModel.reset` (grid.py): clears the sparse cell store, the
cell-attribute log, row heights and column widths, the macros, the result
cache, and the user-assigned globals (`clear_globals` followed by
`reload_modules`, which re-imports only the standard modules). -/
def GridTableModel_reset (s : CodeArrayState) : CodeArrayState :=
  { s with
    cells := [],
    attrs := { s.attrs with log := [] },
    rowHeights := [],
    colWidths := [],
    pyMacros := [],
    resultCache := [],
    userGlobals := [] }

/-! ## Structural insert and delete

Modelled from the spec (§3, §4.3, §4.5, §6): `DataArray.insert` and
`DataArray.delete` live in `pyspread.model`, outside the sources at hand.
Failure conditions are the two the spec names: insert must reject
exceeding the configured maximum shape, delete must reject a request whose
count is at least the remaining extent on that axis.  On success the cell
keys are shifted (rows/columns scoped to the given table, tables across
the whole store), the attribute selections are shifted, the attribute
caches and the result cache are cleared, and the stored shape is
updated. -/

inductive Axis where
  | rowAxis | colAxis | tabAxis
deriving DecidableEq

def axisDim (shape : Nat × Nat × Nat) : Axis → Nat
  | .rowAxis => shape.1
  | .colAxis => shape.2.1
  | .tabAxis => shape.2.2

def tabMatches (tab : Option Nat) (b : Nat) : Bool :=
  match tab with
  | none => true
  | some t => decide (b = t)

def shiftKeyInsert (axis : Axis) (point count : Nat) (tab : Option Nat)
    (k : Key) : Key :=
  match axis with
  | .rowAxis =>
    if tabMatches tab k.2.2 && decide (point ≤ k.1) then
      (k.1 + count, k.2.1, k.2.2)
    else k
  | .colAxis =>
    if tabMatches tab k.2.2 && decide (point ≤ k.2.1) then
      (k.1, k.2.1 + count, k.2.2)
    else k
  | .tabAxis =>
    if decide (point ≤ k.2.2) then (k.1, k.2.1, k.2.2 + count) else k

def isDeletedKey (axis : Axis) (point count : Nat) (tab : Option Nat)
    (k : Key) : Bool :=
  match axis with
  | .rowAxis =>
    tabMatches tab k.2.2 && decide (point ≤ k.1) && decide (k.1 < point + count)
  | .colAxis =>
    tabMatches tab k.2.2 && decide (point ≤ k.2.1) &&
      decide (k.2.1 < point + count)
  | .tabAxis => decide (point ≤ k.2.2) && decide (k.2.2 < point + count)

def shiftKeyDelete (axis : Axis) (point count : Nat) (tab : Option Nat)
    (k : Key) : Key :=
  match axis with
  | .rowAxis =>
    if tabMatches tab k.2.2 && decide (point + count ≤ k.1) then
      (k.1 - count, k.2.1, k.2.2)
    else k
  | .colAxis =>
    if tabMatches tab k.2.2 && decide (point + count ≤ k.2.1) then
      (k.1, k.2.1 - count, k.2.2)
    else k
  | .tabAxis =>
    if decide (point + count ≤ k.2.2) then (k.1, k.2.1, k.2.2 - count) else k

/-- Shift by `count` every row coordinate at or after `point` (insert). -/
def Selection.insertShiftRow (sel : Selection) (point count : Int) :
    Selection where
  blockTl := sel.blockTl.map (fun p =>
    (if point ≤ p.1 then p.1 + count else p.1, p.2))
  blockBr := sel.blockBr.map (fun p =>
    (if point ≤ p.1 then p.1 + count else p.1, p.2))
  rows := sel.rows.map (fun r => if point ≤ r then r + count else r)
  cols := sel.cols
  cells := sel.cells.map (fun p =>
    (if point ≤ p.1 then p.1 + count else p.1, p.2))

/-- Shift by `count` every column coordinate at or after `point` (insert). -/
def Selection.insertShiftCol (sel : Selection) (point count : Int) :
    Selection where
  blockTl := sel.blockTl.map (fun p =>
    (p.1, if point ≤ p.2 then p.2 + count else p.2))
  blockBr := sel.blockBr.map (fun p =>
    (p.1, if point ≤ p.2 then p.2 + count else p.2))
  rows := sel.rows
  cols := sel.cols.map (fun c0 => if point ≤ c0 then c0 + count else c0)
  cells := sel.cells.map (fun p =>
    (p.1, if point ≤ p.2 then p.2 + count else p.2))

def delShiftCoord (point count c : Int) : Int :=
  if point + count ≤ c then c - count else c

/-- Shift down by `count` every row coordinate past the deleted range. -/
def Selection.deleteShiftRow (sel : Selection) (point count : Int) :
    Selection where
  blockTl := sel.blockTl.map (fun p => (delShiftCoord point count p.1, p.2))
  blockBr := sel.blockBr.map (fun p => (delShiftCoord point count p.1, p.2))
  rows := sel.rows.map (delShiftCoord point count)
  cols := sel.cols
  cells := sel.cells.map (fun p => (delShiftCoord point count p.1, p.2))

/-- Shift down by `count` every column coordinate past the deleted range. -/
def Selection.deleteShiftCol (sel : Selection) (point count : Int) :
    Selection where
  blockTl := sel.blockTl.map (fun p => (p.1, delShiftCoord point count p.2))
  blockBr := sel.blockBr.map (fun p => (p.1, delShiftCoord point count p.2))
  rows := sel.rows
  cols := sel.cols.map (delShiftCoord point count)
  cells := sel.cells.map (fun p => (p.1, delShiftCoord point count p.2))

def attrEntryInsertShift (axis : Axis) (point count : Nat) (tab : Option Nat)
    (e : AttrEntry) : AttrEntry :=
  match axis with
  | .rowAxis =>
    if tabMatches tab e.tab then
      { e with sel := e.sel.insertShiftRow (point : Int) (count : Int) }
    else e
  | .colAxis =>
    if tabMatches tab e.tab then
      { e with sel := e.sel.insertShiftCol (point : Int) (count : Int) }
    else e
  | .tabAxis =>
    { e with tab := if point ≤ e.tab then e.tab + count else e.tab }

def attrEntryDeleteShift (axis : Axis) (point count : Nat) (tab : Option Nat)
    (e : AttrEntry) : AttrEntry :=
  match axis with
  | .rowAxis =>
    if tabMatches tab e.tab then
      { e with sel := e.sel.deleteShiftRow (point : Int) (count : Int) }
    else e
  | .colAxis =>
    if tabMatches tab e.tab then
      { e with sel := e.sel.deleteShiftCol (point : Int) (count : Int) }
    else e
  | .tabAxis =>
    { e with tab := (delShiftCoord (point : Int) (count : Int) (e.tab : Int)).toNat }

def growShape (shape : Nat × Nat × Nat) (axis : Axis) (count : Nat) :
    Nat × Nat × Nat :=
  match axis with
  | .rowAxis => (shape.1 + count, shape.2.1, shape.2.2)
  | .colAxis => (shape.1, shape.2.1 + count, shape.2.2)
  | .tabAxis => (shape.1, shape.2.1, shape.2.2 + count)

def shrinkShape (shape : Nat × Nat × Nat) (axis : Axis) (count : Nat) :
    Nat × Nat × Nat :=
  match axis with
  | .rowAxis => (shape.1 - count, shape.2.1, shape.2.2)
  | .colAxis => (shape.1, shape.2.1 - count, shape.2.2)
  | .tabAxis => (shape.1, shape.2.1, shape.2.2 - count)

def gridTooLargeMsg : PyStr := ("Grid too large".toList)

def deleteLastMsg : PyStr :=
  ("Last row, column or table must not be deleted".toList)

/-- Modelled from the spec: `DataArray.insert`.  Validation first (fail
fast, no mutation), reported as `some msg` (a raised `ValueError`); on
success the keys, selections, caches and shape are updated together. -/
def caInsert (s : CodeArrayState) (maxShape : Nat × Nat × Nat)
    (point count : Nat) (axis : Axis) (tab : Option Nat) :
    CodeArrayState × Option PyStr :=
  if axisDim s.shape axis + count > axisDim maxShape axis then
    (s, some gridTooLargeMsg)
  else
    ({ s with
        cells := s.cells.map (fun p =>
          (shiftKeyInsert axis point count tab p.1, p.2)),
        attrs :=
          { log := s.attrs.log.map (attrEntryInsertShift axis point count tab),
            attrCache := [],
            tableCache := [] },
        resultCache := [],
        shape := growShape s.shape axis count },
      none)

/-- Modelled from the spec: `DataArray.delete`.  A request whose count is
at least the remaining extent on the axis is rejected (`ValueError`,
reported as `some msg`) with no mutation; on success the deleted keys are
dropped, the remainder shifted, caches cleared and the shape shrunk. -/
def caDelete (s : CodeArrayState) (point count : Nat) (axis : Axis)
    (tab : Option Nat) : CodeArrayState × Option PyStr :=
  if count ≥ axisDim s.shape axis then
    (s, some deleteLastMsg)
  else
    ({ s with
        cells := (s.cells.filter (fun p =>
            !(isDeletedKey axis point count tab p.1))).map (fun p =>
          (shiftKeyDelete axis point count tab p.1, p.2)),
        attrs :=
          { log := s.attrs.log.map (attrEntryDeleteShift axis point count tab),
            attrCache := [],
            tableCache := [] },
        resultCache := [],
        shape := shrinkShape s.shape axis count },
      none)

/-- `GridTableModel.insertRows` (grid.py): calls `code_array.insert` for
axis 0 on the grid's current table and returns `True`; a backend
`ValueError` is not caught and propagates as `Except.error`. -/
def GridTableModel_insertRows (g : GridState) (row count : Nat) :
    GridState × Except PyStr Bool :=
  match caInsert g.codeArray g.maxShape row count .rowAxis (some g.table) with
  | (s, none) => ({ g with codeArray := s }, .ok true)
  | (s, some e) => ({ g with codeArray := s }, .error e)

/-- `GridTableModel.insertColumns` (grid.py): as `insertRows`, axis 1. -/
def GridTableModel_insertColumns (g : GridState) (column count : Nat) :
    GridState × Except PyStr Bool :=
  match caInsert g.codeArray g.maxShape column count .colAxis (some g.table) with
  | (s, none) => ({ g with codeArray := s }, .ok true)
  | (s, some e) => ({ g with codeArray := s }, .error e)

/-- `GridTableModel.removeRows` (grid.py): calls `code_array.delete` for
axis 0, returns `False` on a caught `ValueError` and `True` otherwise. -/
def GridTableModel_removeRows (g : GridState) (row count : Nat) :
    GridState × Bool :=
  match caDelete g.codeArray row count .rowAxis (some g.table) with
  | (s, none) => ({ g with codeArray := s }, true)
  | (s, some _) => ({ g with codeArray := s }, false)

/-- `GridTableModel.removeColumns` (grid.py): as `removeRows`, axis 1. -/
def GridTableModel_removeColumns (g : GridState) (column count : Nat) :
    GridState × Bool :=
  match caDelete g.codeArray column count .colAxis (some g.table) with
  | (s, none) => ({ g with codeArray := s }, true)
  | (s, some _) => ({ g with codeArray := s }, false)

/-! ## Resize workflow -/

inductive ResizeOutcome where
  | canceled
  | rejected (msg : PyStr)
  | applied
deriving DecidableEq

def invalidShapeMsg : PyStr := ("Invalid grid shape".toList)

def shapeExceedsMsg : PyStr := ("Grid shape exceeds maximum shape".toList)

/-- Modelled from the spec: executing the `SetGridSize` command runs the
shape setter — "set implies a full reset-and-reshape, clearing caches";
cells beyond the new bound are removed. -/
def setGridShape (s : CodeArrayState) (shape : Nat × Nat × Nat) :
    CodeArrayState :=
  { s with
    shape := shape,
    cells := s.cells.filter (fun p => keyInGrid shape p.1),
    resultCache := [],
    attrs := { s.attrs with attrCache := [], tableCache := [] } }

def emptySelection : Selection := ⟨[], [], [], [], []⟩

/-- `Workflows.edit_resize` (workflows.py): a `none` dialog result aborts;
a requested shape with a zero axis is rejected with a status-bar message
before any mutation; a shape exceeding the settings maximum likewise;
otherwise the cursor moves to the origin, a `SetGridSize` command is
issued and the selection is reset. -/
def Workflows_edit_resize (g : GridState)
    (dialogShape : Option (Nat × Nat × Nat)) : GridState × ResizeOutcome :=
  match dialogShape with
  | none => (g, .canceled)
  | some shape =>
    if shape.1 = 0 ∨ shape.2.1 = 0 ∨ shape.2.2 = 0 then
      (g, .rejected invalidShapeMsg)
    else if shape.1 > g.maxShape.1 ∨ shape.2.1 > g.maxShape.2.1 ∨
        shape.2.2 > g.maxShape.2.2 then
      (g, .rejected shapeExceedsMsg)
    else
      ({ g with
          codeArray := setGridShape g.codeArray shape,
          current := (0, 0, 0),
          selection := emptySelection },
        .applied)

/-! ## Claim theorems on the model layer -/

/-- C4: after `GridTableModel.reset` the model holds no data: the sparse
cell store, the cell-attribute log, the macros, the stored row heights and
column widths, the evaluation result cache and the user-assigned global
namespace are all empty. -/
theorem reset_clears_model (s : CodeArrayState) :
    (GridTableModel_reset s).cells = [] ∧
    (GridTableModel_reset s).attrs.log = [] ∧
    (GridTableModel_reset s).pyMacros = [] ∧
    (GridTableModel_reset s).rowHeights = [] ∧
    (GridTableModel_reset s).colWidths = [] ∧
    (GridTableModel_reset s).resultCache = [] ∧
    (GridTableModel_reset s).userGlobals = [] :=
  ⟨rfl, rfl, rfl, rfl, rfl, rfl, rfl⟩

/-- C1: a row or column insertion that would grow the grid beyond the
configured maximum shape is rejected — the backend raises before any
mutation, so the grid state (cell store, result cache, attribute log) is
returned unchanged with the error — and `insertRows`/`insertColumns`
report success (`True`) exactly for requests keeping the shape within the
maximum. -/
theorem insertRows_insertColumns_max_shape (g : GridState)
    (row column count : Nat) :
    (g.codeArray.shape.1 + count > g.maxShape.1 →
      GridTableModel_insertRows g row count = (g, .error gridTooLargeMsg)) ∧
    (g.codeArray.shape.1 + count ≤ g.maxShape.1 →
      ∃ s, GridTableModel_insertRows g row count =
          ({ g with codeArray := s }, .ok true) ∧
        s.shape = (g.codeArray.shape.1 + count, g.codeArray.shape.2.1,
          g.codeArray.shape.2.2)) ∧
    (g.codeArray.shape.2.1 + count > g.maxShape.2.1 →
      GridTableModel_insertColumns g column count =
        (g, .error gridTooLargeMsg)) ∧
    (g.codeArray.shape.2.1 + count ≤ g.maxShape.2.1 →
      ∃ s, GridTableModel_insertColumns g column count =
          ({ g with codeArray := s }, .ok true) ∧
        s.shape = (g.codeArray.shape.1, g.codeArray.shape.2.1 + count,
          g.codeArray.shape.2.2)) := by
  refine ⟨?_, ?_, ?_, ?_⟩
  · intro h
    unfold GridTableModel_insertRows caInsert
    simp only [axisDim]
    rw [if_pos h]
  · intro h
    unfold GridTableModel_insertRows caInsert
    simp only [axisDim]
    rw [if_neg (by omega)]
    exact ⟨_, rfl, rfl⟩
  · intro h
    unfold GridTableModel_insertColumns caInsert
    simp only [axisDim]
    rw [if_pos h]
  · intro h
    unfold GridTableModel_insertColumns caInsert
    simp only [axisDim]
    rw [if_neg (by omega)]
    exact ⟨_, rfl, rfl⟩

/-- A small concrete grid: one occupied cell, shape `(3, 3, 1)`, maximum
shape `(5, 5, 2)`. -/
def demoCA : CodeArrayState :=
  { cells := [((0, 0, 0), ['1'])],
    attrs := { log := [], attrCache := [], tableCache := [] },
    rowHeights := [],
    colWidths := [],
    pyMacros := [],
    resultCache := [],
    frozenCache := [],
    userGlobals := [],
    shape := (3, 3, 1) }

def demoGrid : GridState :=
  { codeArray := demoCA,
    table := 0,
    current := (0, 0, 0),
    selection := ⟨[], [], [], [], []⟩,
    maxShape := (5, 5, 2) }

/-- Witness for C1: on the demo grid, inserting 3 rows (3 + 3 > 5) fails
and leaves the state unchanged; inserting 2 rows (3 + 2 ≤ 5) succeeds. -/
theorem insertRows_max_shape_witness :
    GridTableModel_insertRows demoGrid 0 3 = (demoGrid, .error gridTooLargeMsg) ∧
    (GridTableModel_insertRows demoGrid 0 2).2 = .ok true := by
  constructor
  · exact (insertRows_insertColumns_max_shape demoGrid 0 0 3).1 (by decide)
  · obtain ⟨s, hs, _⟩ :=
      (insertRows_insertColumns_max_shape demoGrid 0 0 2).2.1 (by decide)
    rw [hs]

/-- C2: a row or column deletion whose count is at least the remaining
extent on that axis returns `False` and leaves the grid (hence its row or
column count) unchanged; a deletion with count strictly below that bound
returns `True`. -/
theorem removeRows_removeColumns_bounds (g : GridState)
    (row column count : Nat) :
    (count ≥ g.codeArray.shape.1 →
      GridTableModel_removeRows g row count = (g, false)) ∧
    (count < g.codeArray.shape.1 →
      (GridTableModel_removeRows g row count).2 = true) ∧
    (count ≥ g.codeArray.shape.2.1 →
      GridTableModel_removeColumns g column count = (g, false)) ∧
    (count < g.codeArray.shape.2.1 →
      (GridTableModel_removeColumns g column count).2 = true) := by
  refine ⟨?_, ?_, ?_, ?_⟩
  · intro h
    unfold GridTableModel_removeRows caDelete
    simp only [axisDim]
    rw [if_pos h]
  · intro h
    unfold GridTableModel_removeRows caDelete
    simp only [axisDim]
    rw [if_neg (by omega)]
  · intro h
    unfold GridTableModel_removeColumns caDelete
    simp only [axisDim]
    rw [if_pos h]
  · intro h
    unfold GridTableModel_removeColumns caDelete
    simp only [axisDim]
    rw [if_neg (by omega)]

/-- Witness for C2: deleting all 3 rows of the demo grid is rejected and
the grid is unchanged; deleting 2 of the 3 rows succeeds. -/
theorem removeRows_bounds_witness :
    GridTableModel_removeRows demoGrid 0 3 = (demoGrid, false) ∧
    (GridTableModel_removeRows demoGrid 0 2).2 = true :=
  ⟨(removeRows_removeColumns_bounds demoGrid 0 0 3).1 (by decide),
   (removeRows_removeColumns_bounds demoGrid 0 0 2).2.1 (by decide)⟩

/-- C5: a requested shape with a zero axis, or exceeding the configured
maximum shape on some axis, is rejected before any mutation — no resize
command is issued and the grid state is unchanged; a shape with every axis
at least 1 and within the maximum is applied. -/
theorem edit_resize_validates (g : GridState) (shape : Nat × Nat × Nat) :
    ((shape.1 = 0 ∨ shape.2.1 = 0 ∨ shape.2.2 = 0) →
      Workflows_edit_resize g (some shape) = (g, .rejected invalidShapeMsg)) ∧
    (¬(shape.1 = 0 ∨ shape.2.1 = 0 ∨ shape.2.2 = 0) →
      (shape.1 > g.maxShape.1 ∨ shape.2.1 > g.maxShape.2.1 ∨
        shape.2.2 > g.maxShape.2.2) →
      Workflows_edit_resize g (some shape) = (g, .rejected shapeExceedsMsg)) ∧
    (1 ≤ shape.1 → 1 ≤ shape.2.1 → 1 ≤ shape.2.2 →
      shape.1 ≤ g.maxShape.1 → shape.2.1 ≤ g.maxShape.2.1 →
      shape.2.2 ≤ g.maxShape.2.2 →
      (Workflows_edit_resize g (some shape)).2 = .applied ∧
      (Workflows_edit_resize g (some shape)).1.codeArray.shape = shape) := by
  refine ⟨?_, ?_, ?_⟩
  · intro h
    simp only [Workflows_edit_resize]
    rw [if_pos h]
  · intro h0 h
    simp only [Workflows_edit_resize]
    rw [if_neg h0, if_pos h]
  · intro h1 h2 h3 h4 h5 h6
    simp only [Workflows_edit_resize]
    rw [if_neg (show ¬(shape.1 = 0 ∨ shape.2.1 = 0 ∨ shape.2.2 = 0) by omega),
      if_neg (show ¬(shape.1 > g.maxShape.1 ∨ shape.2.1 > g.maxShape.2.1 ∨
        shape.2.2 > g.maxShape.2.2) by omega)]
    exact ⟨rfl, rfl⟩

/-- Witness for C5: on the demo grid (maximum shape `(5, 5, 2)`), shape
`(0, 3, 1)` is rejected as invalid, `(6, 3, 1)` as exceeding, and
`(4, 4, 1)` is applied. -/
theorem edit_resize_validates_witness :
    Workflows_edit_resize demoGrid (some (0, 3, 1)) =
      (demoGrid, .rejected invalidShapeMsg) ∧
    Workflows_edit_resize demoGrid (some (6, 3, 1)) =
      (demoGrid, .rejected shapeExceedsMsg) ∧
    (Workflows_edit_resize demoGrid (some (4, 4, 1))).2 = .applied ∧
    (Workflows_edit_resize demoGrid (some (4, 4, 1))).1.codeArray.shape =
      (4, 4, 1) := by
  refine ⟨?_, ?_, ?_⟩
  · exact (edit_resize_validates demoGrid (0, 3, 1)).1 (by decide)
  · exact (edit_resize_validates demoGrid (6, 3, 1)).2.1 (by decide) (by decide)
  · exact (edit_resize_validates demoGrid (4, 4, 1)).2.2 (by decide) (by decide)
      (by decide) (by decide) (by decide) (by decide)

/-! ## Frozen cell refresh (`Grid._refresh_frozen_cell`, grid.py) -/

theorem caGet_tableCache (ca : CAState) (key : Key) :
    (caGet ca key).2.tableCache = ca.tableCache := by
  unfold caGet
  cases hg : alGet ca.attrCache key with
  | none => rfl
  | some p =>
    obtain ⟨n, attrs⟩ := p
    by_cases hn : n = ca.log.length
    · simp only [hn, if_pos]
    · simp only [hn, if_neg, if_false]

/-- `Grid._refresh_frozen_cell(key)` (grid.py): looks up the cell's
effective attributes (through the caching `cell_attributes[key]`), and if
the `frozen` attribute is truthy re-evaluates the cell's code through the
evaluator boundary `_eval_cell` and stores the result in the frozen cache
under the key.  The attribute lookup happens in both cases and threads the
point-cache state. -/
def Grid_refresh_frozen_cell (ev : Key → Option PyStr → Result)
    (g : GridState) (key : Key) : GridState :=
  if pyTruthy ((caGet g.codeArray.attrs key).1 AttrKey.frozen) then
    { g with codeArray := { g.codeArray with
        attrs := (caGet g.codeArray.attrs key).2,
        frozenCache := alSet g.codeArray.frozenCache key
          (ev key (alGet g.codeArray.cells key)) } }
  else
    { g with codeArray := { g.codeArray with
        attrs := (caGet g.codeArray.attrs key).2 } }

/-- A stub evaluator in the spirit of §8: the result records the code. -/
def demoEv : Key → Option PyStr → Result :=
  fun _ code => .val (code.getD [])

/-- Counterexample to C3 as stated: on the demo grid the cell `(0,0,0)`
has `frozen = False`, yet `_refresh_frozen_cell` does not leave the state
unchanged — the attribute point cache gains the memoized entry for the
queried key. -/
theorem refresh_frozen_cell_counterexample :
    pyTruthy ((caGet demoGrid.codeArray.attrs (0, 0, 0)).1 AttrKey.frozen) =
      false ∧
    pyTruthy (effectiveAttrs demoGrid.codeArray.attrs.log (0, 0, 0)
      AttrKey.frozen) = false ∧
    Grid_refresh_frozen_cell demoEv demoGrid (0, 0, 0) ≠ demoGrid := by
  refine ⟨rfl, rfl, ?_⟩
  intro h
  have h2 := congrArg
    (fun g0 : GridState => g0.codeArray.attrs.attrCache.length) h
  exact Nat.one_ne_zero h2

/-- C3 as amended: for a coherent attribute cache, exactly when the cell's
effective `frozen` attribute is truthy the call re-evaluates the cell's
code and stores the fresh result in the frozen cache; when it is falsy the
frozen cache is unchanged; in both cases the cell store, the result cache,
the attribute log and the whole-table cache are unchanged (only the
attribute point cache may gain the memoized entry for the queried key). -/
theorem refresh_frozen_cell_spec (ev : Key → Option PyStr → Result)
    (g : GridState) (key : Key) (hc : CacheCoherent g.codeArray.attrs) :
    (pyTruthy (effectiveAttrs g.codeArray.attrs.log key AttrKey.frozen) =
        true →
      (Grid_refresh_frozen_cell ev g key).codeArray.frozenCache =
        alSet g.codeArray.frozenCache key
          (ev key (alGet g.codeArray.cells key))) ∧
    (pyTruthy (effectiveAttrs g.codeArray.attrs.log key AttrKey.frozen) =
        false →
      (Grid_refresh_frozen_cell ev g key).codeArray.frozenCache =
        g.codeArray.frozenCache) ∧
    (Grid_refresh_frozen_cell ev g key).codeArray.cells =
      g.codeArray.cells ∧
    (Grid_refresh_frozen_cell ev g key).codeArray.resultCache =
      g.codeArray.resultCache ∧
    (Grid_refresh_frozen_cell ev g key).codeArray.attrs.log =
      g.codeArray.attrs.log ∧
    (Grid_refresh_frozen_cell ev g key).codeArray.attrs.tableCache =
      g.codeArray.attrs.tableCache := by
  have hf : (caGet g.codeArray.attrs key).1 =
      effectiveAttrs g.codeArray.attrs.log key := caGet_fst key hc
  unfold Grid_refresh_frozen_cell
  rw [hf]
  by_cases hz : pyTruthy (effectiveAttrs g.codeArray.attrs.log key
      AttrKey.frozen) = true
  · rw [if_pos hz]
    refine ⟨fun _ => rfl, fun hfa => absurd hz (by rw [hfa]; simp), rfl, rfl,
      ?_, ?_⟩
    · exact caGet_log g.codeArray.attrs key
    · exact caGet_tableCache g.codeArray.attrs key
  · rw [if_neg hz]
    refine ⟨fun hta => absurd hta hz, fun _ => rfl, rfl, rfl, ?_, ?_⟩
    · exact caGet_log g.codeArray.attrs key
    · exact caGet_tableCache g.codeArray.attrs key

/-- A demo grid whose attribute log freezes cell `(0, 0)` of table 0. -/
def demoFrozenGrid : GridState :=
  { demoGrid with codeArray := { demoCA with attrs :=
      { log := [⟨⟨[(0, 0)], [(0, 0)], [], [], []⟩, 0,
          [(AttrKey.frozen, AttrVal.vBool true)]⟩],
        attrCache := [],
        tableCache := [] } } }

/-- Witness for the amended C3 on a frozen cell of the demo grid: the
frozen cache receives the freshly evaluated result. -/
theorem refresh_frozen_cell_spec_witness :
    (Grid_refresh_frozen_cell demoEv demoFrozenGrid (0, 0, 0)).codeArray.frozenCache =
      alSet demoFrozenGrid.codeArray.frozenCache (0, 0, 0)
        (demoEv (0, 0, 0) (alGet demoFrozenGrid.codeArray.cells (0, 0, 0))) := by
  have hc : CacheCoherent demoFrozenGrid.codeArray.attrs := by
    intro k n a hm _
    simp [demoFrozenGrid, CAState.attrCache] at hm
  exact (refresh_frozen_cell_spec demoEv demoFrozenGrid (0, 0, 0) hc).1 rfl

/-! ## Delete workflow (`Workflows.delete`, workflows.py) -/

/-- Modelled from the spec: `Selection.cell_generator(shape)` — the grid
coordinates within the shape that the selection contains, row-major,
without duplicates. -/
def cellGenerator (sel : Selection) (shape : Nat × Nat × Nat) :
    List (Nat × Nat) :=
  (List.range shape.1).flatMap (fun row =>
    (List.range shape.2.1).filterMap (fun col =>
      if sel.contains (Int.ofNat row, Int.ofNat col) then some (row, col)
      else none))

/-- One step of `Workflows.delete`: look up the cell's effective
attributes through the caching `cell_attributes[key]`, and unless `locked`
is truthy pop the cell's code (the effect of `SetCellCode(None)`). -/
def deleteStep (tab : Nat) (s : CodeArrayState) (rc : Nat × Nat) :
    CodeArrayState :=
  if pyTruthy ((caGet s.attrs (rc.1, rc.2, tab)).1 AttrKey.locked) then
    { s with attrs := (caGet s.attrs (rc.1, rc.2, tab)).2 }
  else
    { s with
      attrs := (caGet s.attrs (rc.1, rc.2, tab)).2,
      cells := alPop s.cells (rc.1, rc.2, tab) }

/-- `Workflows.delete` (workflows.py): for every cell the selection
generates within the model shape, pop the cell's code unless the cell's
effective `locked` attribute is truthy. -/
def Workflows_delete (g : GridState) : GridState :=
  { g with codeArray := List.foldl (deleteStep g.table) g.codeArray (cellGenerator g.selection g.codeArray.shape) }

theorem deleteStep_log (tab : Nat) (s : CodeArrayState) (rc : Nat × Nat) :
    (deleteStep tab s rc).attrs.log = s.attrs.log := by
  unfold deleteStep
  split
  · exact caGet_log s.attrs (rc.1, rc.2, tab)
  · exact caGet_log s.attrs (rc.1, rc.2, tab)

theorem deleteStep_coherent {tab : Nat} {s : CodeArrayState}
    {rc : Nat × Nat} (hc : CacheCoherent s.attrs) :
    CacheCoherent (deleteStep tab s rc).attrs := by
  unfold deleteStep
  split
  · exact caGet_coherent (rc.1, rc.2, tab) hc
  · exact caGet_coherent (rc.1, rc.2, tab) hc

theorem deleteStep_preserves_locked {tab : Nat} {s : CodeArrayState}
    {rc : Nat × Nat} (key : Key) (hc : CacheCoherent s.attrs)
    (hl : pyTruthy (effectiveAttrs s.attrs.log key AttrKey.locked) = true) :
    alGet (deleteStep tab s rc).cells key = alGet s.cells key := by
  unfold deleteStep
  by_cases hk : ((rc.1, rc.2, tab) : Key) = key
  · rw [hk, caGet_fst key hc, hl, if_pos rfl]
  · split
    · rfl
    · exact alGet_alPop_ne s.cells (rc.1, rc.2, tab) key (Ne.symm hk)

theorem foldl_deleteStep_preserves_locked (tab : Nat) (key : Key)
    (l : List (Nat × Nat)) :
    ∀ s : CodeArrayState, CacheCoherent s.attrs →
      pyTruthy (effectiveAttrs s.attrs.log key AttrKey.locked) = true →
      alGet (l.foldl (deleteStep tab) s).cells key = alGet s.cells key := by
  induction l with
  | nil => intro s _ _; rfl
  | cons rc rest ih =>
    intro s hc hl
    rw [List.foldl_cons]
    rw [ih _ (deleteStep_coherent hc)
        (by rw [deleteStep_log]; exact hl)]
    exact deleteStep_preserves_locked key hc hl

/-- C8: the delete-selection workflow removes code only from cells whose
effective `locked` attribute is falsy — for every coordinate of the
grid's current table whose effective `locked` attribute is truthy, the
cell's code is unchanged (for a coherent attribute point cache). -/
theorem delete_preserves_locked (g : GridState) (row col : Nat)
    (hc : CacheCoherent g.codeArray.attrs)
    (hl : pyTruthy (effectiveAttrs g.codeArray.attrs.log (row, col, g.table)
      AttrKey.locked) = true) :
    alGet (Workflows_delete g).codeArray.cells (row, col, g.table) =
      alGet g.codeArray.cells (row, col, g.table) := by
  unfold Workflows_delete
  exact foldl_deleteStep_preserves_locked g.table (row, col, g.table)
    (cellGenerator g.selection g.codeArray.shape) g.codeArray hc hl

/-- A demo grid whose log locks cell `(0, 0)` of table 0 and whose
selection covers the block `(0,0)`–`(0,1)`; both cells hold code. -/
def demoLockedGrid : GridState :=
  { demoGrid with
    codeArray := { demoCA with
      cells := [((0, 0, 0), ['a']), ((0, 1, 0), ['b'])],
      attrs :=
        { log := [⟨⟨[(0, 0)], [(0, 0)], [], [], []⟩, 0,
            [(AttrKey.locked, AttrVal.vBool true)]⟩],
          attrCache := [],
          tableCache := [] } },
    selection := ⟨[(0, 0)], [(0, 1)], [], [], []⟩ }

/-- Witness for C8: on the demo grid, deleting the selection keeps the
locked cell's code and removes the unlocked one's. -/
theorem delete_preserves_locked_witness :
    alGet (Workflows_delete demoLockedGrid).codeArray.cells (0, 0, 0) =
      some ['a'] ∧
    alGet (Workflows_delete demoLockedGrid).codeArray.cells (0, 1, 0) =
      none := by
  constructor
  · have hc : CacheCoherent demoLockedGrid.codeArray.attrs := by
      intro k n a hm _
      simp [demoLockedGrid, CAState.attrCache] at hm
    have h := delete_preserves_locked demoLockedGrid 0 0 hc rfl
    exact h.trans rfl
  · decide

/-! ## Copy and paste (`Workflows.edit_copy`, `Workflows._paste_to_current`) -/

/-- Modelled from the spec: `Selection.get_grid_bbox(shape)` — the min/max
over all contributing coordinates, with whole-row/column selectors
extending to the grid edges; `none` for an empty selection. -/
def getGridBbox (sel : Selection) (shape : Nat × Nat × Nat) :
    Option ((Int × Int) × (Int × Int)) :=
  let rowCands : List Int :=
    sel.blockTl.map Prod.fst ++ sel.blockBr.map Prod.fst ++
      sel.cells.map Prod.fst ++ sel.rows ++
      (if sel.cols.isEmpty then [] else [0, (shape.1 : Int) - 1])
  let colCands : List Int :=
    sel.blockTl.map Prod.snd ++ sel.blockBr.map Prod.snd ++
      sel.cells.map Prod.snd ++ sel.cols ++
      (if sel.rows.isEmpty then [] else [0, (shape.2.1 : Int) - 1])
  match rowCands.min?, rowCands.max?, colCands.min?, colCands.max? with
  | some top, some bottom, some left, some right =>
    some ((top, left), (bottom, right))
  | _, _, _, _ => none

/-- `code_array((row, column, table))` at integer coordinates from a
bounding box: negative coordinates never occur as keys. -/
def cellGetI (cells : List (Key × PyStr)) (r c : Int) (t : Nat) :
    Option PyStr :=
  if 0 ≤ r ∧ 0 ≤ c then alGet cells (r.toNat, c.toNat, t) else none

/-- Python `range(a, b + 1)` over integers. -/
def rangeInt (a b : Int) : List Int :=
  (List.range (b + 1 - a).toNat).map (fun i => a + Int.ofNat i)

/-- `Workflows.edit_copy` (workflows.py): over the selection's grid
bounding box, each cell contributes its code (the empty string when the
cell is empty or not in the selection) with newlines replaced by form
feeds; cells are tab-joined per row and the rows newline-joined.  On an
empty selection (no bounding box) the model returns the empty string; the
claims only concern non-empty selections. -/
def Workflows_edit_copy (g : GridState) : PyStr :=
  match getGridBbox g.selection g.codeArray.shape with
  | none => []
  | some ((top, left), (bottom, right)) =>
    joinChar '\n' ((rangeInt top bottom).map (fun row =>
      joinChar '\t' ((rangeInt left right).map (fun col =>
        if g.selection.contains (row, col) then
          replaceChar '\n' ffC
            ((cellGetI g.codeArray.cells row col g.table).getD [])
        else []))))

/-- The inner loop of `_paste_to_current`: paste one row's values left to
right, decoding form feeds back to newlines, stopping at the first column
outside the grid. -/
def pasteRowLoop (shape : Nat × Nat × Nat) (tab row left : Nat) :
    List PyStr → Nat → List (Key × PyStr) → List (Key × PyStr)
  | [], _, cells => cells
  | v :: rest, col, cells =>
    if keyInGrid shape (row, col + left, tab) then
      pasteRowLoop shape tab row left rest (col + 1)
        (alSet cells (row, col + left, tab) (replaceChar ffC '\n' v))
    else cells

/-- The outer loop of `_paste_to_current`: paste the parsed lines top to
bottom, stopping at the first row outside the grid. -/
def pasteRowsLoop (shape : Nat × Nat × Nat) (tab top left : Nat) :
    List (List PyStr) → Nat → List (Key × PyStr) → List (Key × PyStr)
  | [], _, cells => cells
  | line :: rest, rowIdx, cells =>
    if keyInGrid shape (rowIdx + top, 0, tab) then
      pasteRowsLoop shape tab top left rest (rowIdx + 1)
        (pasteRowLoop shape tab (rowIdx + top) left line 0 cells)
    else cells

/-- `Workflows._paste_to_current` (workflows.py): split the clipboard text
into lines at newlines and values at tabs, and starting from the current
cell set each in-grid cell's code to the value with form feeds decoded
back to newlines (the accumulated `SetCellCode` commands execute on push;
the loop's bounds tests depend only on the shape, so setting inline is
equivalent). -/
def Workflows_paste_to_current (g : GridState) (data : PyStr) : GridState :=
  { g with codeArray := { g.codeArray with
      cells := pasteRowsLoop g.codeArray.shape g.current.2.2 g.current.1
        g.current.2.1 ((splitChar '\n' data).map (splitChar '\t')) 0
        g.codeArray.cells } }

theorem keyInGrid_iff {shape : Nat × Nat × Nat} {k : Key} :
    keyInGrid shape k = true ↔
      k.1 < shape.1 ∧ k.2.1 < shape.2.1 ∧ k.2.2 < shape.2.2 := by
  simp [keyInGrid, Bool.and_eq_true, decide_eq_true_eq, and_assoc]

theorem not_mem_replaceChar_left {a b : Char} (hab : a ≠ b) (s : PyStr) :
    a ∉ replaceChar a b s := by
  intro hmem
  rcases mem_replaceChar hmem with ⟨_, hne⟩ | he
  · exact hne rfl
  · exact hab he

theorem not_mem_joinChar {c sep : Char} (h : c ≠ sep) :
    ∀ {parts : List PyStr}, (∀ p ∈ parts, c ∉ p) → c ∉ joinChar sep parts := by
  intro parts
  induction parts with
  | nil => intro _ hmem; exact absurd hmem (List.not_mem_nil c)
  | cons x xs ih =>
    intro hp hmem
    match xs with
    | [] =>
      rw [joinChar] at hmem
      exact hp x (List.mem_cons_self x []) hmem
    | y :: ys =>
      rw [joinChar] at hmem
      rcases List.mem_append.mp hmem with hx | hx
      · exact hp x (List.mem_cons_self x _) hx
      · rcases List.mem_cons.mp hx with hx | hx
        · exact h hx
        · exact ih (fun p hpm => hp p (List.mem_cons_of_mem x hpm)) hx

theorem getD_map_range {α : Type} (f : Nat → α) {n j : Nat} (hj : j < n)
    (d : α) : ((List.range n).map f).getD j d = f j := by
  rw [List.getD_eq_getElem?_getD, List.getElem?_map, List.getElem?_range hj]
  rfl

theorem rangeInt_natCast (a b : Nat) :
    rangeInt (a : Int) (b : Int) =
      (List.range (b + 1 - a)).map (fun i => ((a + i : Nat) : Int)) := by
  unfold rangeInt
  have ht : (((b : Int) + 1 - (a : Int)).toNat) = b + 1 - a := by omega
  rw [ht]
  refine List.map_congr_left (fun i _ => ?_)
  rw [Int.ofNat_eq_natCast]
  push_cast
  ring

theorem pasteRowLoop_frame (shape : Nat × Nat × Nat) (tab row left : Nat)
    (vals : List PyStr) :
    ∀ (col : Nat) (cells : List (Key × PyStr)) (k : Key),
      (k.2.1 < col + left ∨ k.1 ≠ row ∨ k.2.2 ≠ tab) →
      alGet (pasteRowLoop shape tab row left vals col cells) k =
        alGet cells k := by
  induction vals with
  | nil => intro col cells k _; rfl
  | cons v rest ih =>
    intro col cells k hk
    simp only [pasteRowLoop]
    by_cases hg : keyInGrid shape (row, col + left, tab) = true
    · rw [if_pos hg]
      have hne : k ≠ (row, col + left, tab) := by
        intro he
        rcases hk with h1 | h2 | h3
        · rw [he] at h1
          simp at h1
        · exact h2 (by rw [he])
        · exact h3 (by rw [he])
      rw [ih (col + 1) _ k ?_, alGet_alSet_ne _ _ _ _ hne]
      rcases hk with h1 | h2 | h3
      · exact Or.inl (by omega)
      · exact Or.inr (Or.inl h2)
      · exact Or.inr (Or.inr h3)
    · rw [if_neg hg]

theorem pasteRowLoop_get (shape : Nat × Nat × Nat) (tab row left : Nat)
    (vals : List PyStr) :
    ∀ (col : Nat) (cells : List (Key × PyStr)) (j : Nat), j < vals.length →
      (∀ i, i < vals.length →
        keyInGrid shape (row, col + i + left, tab) = true) →
      alGet (pasteRowLoop shape tab row left vals col cells)
          (row, col + j + left, tab) =
        some (replaceChar ffC '\n' (vals.getD j [])) := by
  induction vals with
  | nil =>
    intro col cells j hj _
    exact absurd hj (by simp)
  | cons v rest ih =>
    intro col cells j hj hin
    have hg : keyInGrid shape (row, col + left, tab) = true := by
      have := hin 0 (by simp)
      simpa using this
    simp only [pasteRowLoop]
    rw [if_pos hg]
    cases j with
    | zero =>
      rw [pasteRowLoop_frame shape tab row left rest (col + 1) _ _
        (Or.inl (by show col + 0 + left < col + 1 + left; omega))]
      simp only [Nat.add_zero]
      rw [alGet_alSet_same]
      rfl
    | succ j0 =>
      rw [show col + (j0 + 1) + left = (col + 1) + j0 + left from by omega]
      have hres := ih (col + 1)
        (alSet cells (row, col + left, tab) (replaceChar ffC '\n' v)) j0
        (by simpa using hj) ?_
      · rw [hres]
        rfl
      · intro i hi
        have := hin (i + 1) (by simpa using hi)
        rw [show col + 1 + i + left = col + (i + 1) + left from by omega]
        exact this

theorem pasteRowsLoop_frame (shape : Nat × Nat × Nat) (tab top left : Nat)
    (lines : List (List PyStr)) :
    ∀ (rowIdx : Nat) (cells : List (Key × PyStr)) (k : Key),
      k.1 < rowIdx + top →
      alGet (pasteRowsLoop shape tab top left lines rowIdx cells) k =
        alGet cells k := by
  induction lines with
  | nil => intro rowIdx cells k _; rfl
  | cons line rest ih =>
    intro rowIdx cells k hk
    simp only [pasteRowsLoop]
    by_cases hg : keyInGrid shape (rowIdx + top, 0, tab) = true
    · rw [if_pos hg, ih (rowIdx + 1) _ k (by omega),
        pasteRowLoop_frame shape tab (rowIdx + top) left line 0 _ k
          (Or.inr (Or.inl (by omega)))]
    · rw [if_neg hg]

theorem pasteRowsLoop_get (shape : Nat × Nat × Nat) (tab top left : Nat)
    (lines : List (List PyStr)) :
    ∀ (rowIdx : Nat) (cells : List (Key × PyStr)) (j cj : Nat),
      j < lines.length →
      (∀ i, i < lines.length →
        keyInGrid shape (rowIdx + i + top, 0, tab) = true) →
      cj < (lines.getD j []).length →
      (∀ i, i < (lines.getD j []).length →
        keyInGrid shape (rowIdx + j + top, 0 + i + left, tab) = true) →
      alGet (pasteRowsLoop shape tab top left lines rowIdx cells)
          (rowIdx + j + top, 0 + cj + left, tab) =
        some (replaceChar ffC '\n' ((lines.getD j []).getD cj [])) := by
  induction lines with
  | nil =>
    intro rowIdx cells j cj hj _ _ _
    exact absurd hj (by simp)
  | cons line rest ih =>
    intro rowIdx cells j cj hj hrows hcj hcols
    have hg : keyInGrid shape (rowIdx + top, 0, tab) = true := by
      have := hrows 0 (by simp)
      simpa using this
    simp only [pasteRowsLoop]
    rw [if_pos hg]
    cases j with
    | zero =>
      rw [pasteRowsLoop_frame shape tab top left rest (rowIdx + 1) _ _
        (by show rowIdx + 0 + top < rowIdx + 1 + top; omega)]
      have := pasteRowLoop_get shape tab (rowIdx + top) left line 0 cells cj
        (by simpa using hcj) (fun i hi => by
          have := hcols i (by simpa using hi)
          simpa using this)
      simpa using this
    | succ j0 =>
      rw [show rowIdx + (j0 + 1) + top = (rowIdx + 1) + j0 + top from by
        omega]
      have hres := ih (rowIdx + 1)
        (pasteRowLoop shape tab (rowIdx + top) left line 0 cells) j0 cj
        (by simpa using hj)
        (fun i hi => by
          have := hrows (i + 1) (by simpa using hi)
          rw [show rowIdx + 1 + i + top = rowIdx + (i + 1) + top from by
            omega]
          exact this)
        (by simpa using hcj)
        (fun i hi => by
          have := hcols i (by simpa using hi)
          rw [show rowIdx + 1 + j0 + top = rowIdx + (j0 + 1) + top from by
            omega]
          simpa using this)
      rw [hres]
      rfl

/-- The grid of encoded cell codes `edit_copy` produces for a fully
selected block: row `i`, column `jc` holds the code at
`(top + i, left + jc, tab)` with newlines encoded as form feeds. -/
def copyLines (cells : List (Key × PyStr)) (tab top left n m : Nat) :
    List (List PyStr) :=
  (List.range n).map (fun i =>
    (List.range m).map (fun jc =>
      replaceChar '\n' ffC ((alGet cells (top + i, left + jc, tab)).getD [])))

theorem edit_copy_eval (g : GridState) (top left bottom right : Nat)
    (hsel : g.selection = ⟨[((top : Int), (left : Int))],
      [((bottom : Int), (right : Int))], [], [], []⟩)
    (htb : top ≤ bottom) (hlr : left ≤ right) :
    Workflows_edit_copy g = joinChar '\n'
      ((copyLines g.codeArray.cells g.table top left (bottom + 1 - top)
        (right + 1 - left)).map (joinChar '\t')) := by
  have h1 : min ((top : Int)) ((bottom : Int)) = ((top : Int)) :=
    min_eq_left (by exact_mod_cast htb)
  have h2 : max ((top : Int)) ((bottom : Int)) = ((bottom : Int)) :=
    max_eq_right (by exact_mod_cast htb)
  have h3 : min ((left : Int)) ((right : Int)) = ((left : Int)) :=
    min_eq_left (by exact_mod_cast hlr)
  have h4 : max ((left : Int)) ((right : Int)) = ((right : Int)) :=
    max_eq_right (by exact_mod_cast hlr)
  have hbb : getGridBbox (⟨[((top : Int), (left : Int))],
      [((bottom : Int), (right : Int))], [], [], []⟩ : Selection)
      g.codeArray.shape =
      some ((((top : Int)), ((left : Int))),
        (((bottom : Int)), ((right : Int)))) := by
    show some ((min ((top : Int)) ((bottom : Int)),
        min ((left : Int)) ((right : Int))),
      (max ((top : Int)) ((bottom : Int)),
        max ((left : Int)) ((right : Int)))) = _
    rw [h1, h2, h3, h4]
  simp only [Workflows_edit_copy, hsel, hbb]
  rw [rangeInt_natCast top bottom, List.map_map]
  unfold copyLines
  rw [List.map_map]
  refine congrArg (joinChar '\n') (List.map_congr_left (fun i hi => ?_))
  simp only [Function.comp]
  refine congrArg (joinChar '\t') ?_
  rw [rangeInt_natCast left right, List.map_map]
  refine List.map_congr_left (fun jc hjc => ?_)
  simp only [Function.comp]
  rw [List.mem_range] at hi hjc
  have hcont : Selection.contains
      (⟨[((top : Int), (left : Int))], [((bottom : Int), (right : Int))],
        [], [], []⟩ : Selection)
      ((((top + i : Nat)) : Int), (((left + jc : Nat)) : Int)) = true := by
    simp only [Selection.contains, List.zip_cons_cons, List.zip_nil_right,
      List.any_cons, List.any_nil, Bool.or_false, decide_eq_true_eq]
    push_cast
    omega
  rw [if_pos hcont]
  unfold cellGetI
  have hnn : (0 : Int) ≤ (((top + i : Nat)) : Int) ∧
      (0 : Int) ≤ (((left + jc : Nat)) : Int) :=
    ⟨Int.natCast_nonneg _, Int.natCast_nonneg _⟩
  rw [if_pos hnn, Int.toNat_natCast, Int.toNat_natCast]

/-- C9: copy-then-paste round-trips cell code.  For a fully selected
rectangular block within the grid whose cells all hold code free of tab
and form-feed characters, pasting the clipboard text of `edit_copy` with
the cursor at the block's top-left cell restores every cell's code,
embedded newlines included (copy encodes LF as FF, paste decodes it
back). -/
theorem copy_paste_roundtrip (g : GridState) (top left bottom right : Nat)
    (hsel : g.selection = ⟨[((top : Int), (left : Int))],
      [((bottom : Int), (right : Int))], [], [], []⟩)
    (htb : top ≤ bottom) (hlr : left ≤ right)
    (hcur : g.current = (top, left, g.table))
    (hrow : bottom < g.codeArray.shape.1)
    (hcol : right < g.codeArray.shape.2.1)
    (htab : g.table < g.codeArray.shape.2.2)
    (hcode : ∀ r c, top ≤ r → r ≤ bottom → left ≤ c → c ≤ right →
      ∃ code, alGet g.codeArray.cells (r, c, g.table) = some code ∧
        '\t' ∉ code ∧ ffC ∉ code) :
    ∀ r c, top ≤ r → r ≤ bottom → left ≤ c → c ≤ right →
      alGet (Workflows_paste_to_current g
          (Workflows_edit_copy g)).codeArray.cells (r, c, g.table) =
        alGet g.codeArray.cells (r, c, g.table) := by
  intro r c hr1 hr2 hc1 hc2
  obtain ⟨code, hcodeEq, htabFree, hffFree⟩ := hcode r c hr1 hr2 hc1 hc2
  have hcopy := edit_copy_eval g top left bottom right hsel htb hlr
  have hsplit : splitChar '\n' (Workflows_edit_copy g) =
      (copyLines g.codeArray.cells g.table top left (bottom + 1 - top)
        (right + 1 - left)).map (joinChar '\t') := by
    rw [hcopy]
    refine splitChar_joinChar ?_ ?_
    · intro hnil
      rw [List.map_eq_nil_iff] at hnil
      unfold copyLines at hnil
      rw [List.map_eq_nil_iff, List.range_eq_nil] at hnil
      omega
    · intro part hpart
      rcases List.mem_map.mp hpart with ⟨rowl, hrowl, hpr⟩
      rw [← hpr]
      refine not_mem_joinChar (by decide) ?_
      intro p hp
      unfold copyLines at hrowl
      rcases List.mem_map.mp hrowl with ⟨i, _, hri⟩
      rw [← hri] at hp
      rcases List.mem_map.mp hp with ⟨jc, _, hpj⟩
      rw [← hpj]
      exact not_mem_replaceChar_left (by decide) _
  have hrowParse : ∀ rowl ∈ copyLines g.codeArray.cells g.table top left
      (bottom + 1 - top) (right + 1 - left),
      splitChar '\t' (joinChar '\t' rowl) = rowl := by
    intro rowl hrowl
    unfold copyLines at hrowl
    rcases List.mem_map.mp hrowl with ⟨i, hi, hri⟩
    rw [List.mem_range] at hi
    rw [← hri]
    refine splitChar_joinChar ?_ ?_
    · intro hnil
      rw [List.map_eq_nil_iff, List.range_eq_nil] at hnil
      omega
    · intro p hp
      rcases List.mem_map.mp hp with ⟨jc, hjc, hpj⟩
      rw [List.mem_range] at hjc
      rw [← hpj]
      intro htm
      obtain ⟨code2, hc2, ht2, _⟩ := hcode (top + i) (left + jc) (by omega)
        (by omega) (by omega) (by omega)
      rw [hc2, Option.getD_some] at htm
      rcases mem_replaceChar htm with ⟨hmem, _⟩ | heq
      · exact ht2 hmem
      · exact absurd heq (by decide)
  have hparse : (splitChar '\n' (Workflows_edit_copy g)).map
      (splitChar '\t') = copyLines g.codeArray.cells g.table top left
      (bottom + 1 - top) (right + 1 - left) := by
    rw [hsplit, List.map_map]
    refine (List.map_congr_left ?_).trans (List.map_id _)
    intro a ha
    exact hrowParse a ha
  have harg1 : g.current.2.2 = g.table := by rw [hcur]
  have harg2 : g.current.1 = top := by rw [hcur]
  have harg3 : g.current.2.1 = left := by rw [hcur]
  have hlen : (copyLines g.codeArray.cells g.table top left
      (bottom + 1 - top) (right + 1 - left)).length = bottom + 1 - top := by
    unfold copyLines
    rw [List.length_map, List.length_range]
  have hgdj : (copyLines g.codeArray.cells g.table top left
      (bottom + 1 - top) (right + 1 - left)).getD (r - top) [] =
      (List.range (right + 1 - left)).map (fun jc =>
        replaceChar '\n' ffC ((alGet g.codeArray.cells
          (top + (r - top), left + jc, g.table)).getD [])) := by
    unfold copyLines
    exact getD_map_range _ (by omega) _
  have hj : r - top < (copyLines g.codeArray.cells g.table top left
      (bottom + 1 - top) (right + 1 - left)).length := by
    rw [hlen]
    omega
  have hrows : ∀ i, i < (copyLines g.codeArray.cells g.table top left
      (bottom + 1 - top) (right + 1 - left)).length →
      keyInGrid g.codeArray.shape (0 + i + top, 0, g.table) = true := by
    intro i hi
    rw [hlen] at hi
    refine keyInGrid_iff.mpr ⟨?_, ?_, ?_⟩
    · show 0 + i + top < g.codeArray.shape.1
      omega
    · show 0 < g.codeArray.shape.2.1
      omega
    · show g.table < g.codeArray.shape.2.2
      exact htab
  have hcjlen : ((copyLines g.codeArray.cells g.table top left
      (bottom + 1 - top) (right + 1 - left)).getD (r - top) []).length =
      right + 1 - left := by
    rw [hgdj, List.length_map, List.length_range]
  have hcj : c - left < ((copyLines g.codeArray.cells g.table top left
      (bottom + 1 - top) (right + 1 - left)).getD (r - top) []).length := by
    rw [hcjlen]
    omega
  have hcols : ∀ i, i < ((copyLines g.codeArray.cells g.table top left
      (bottom + 1 - top) (right + 1 - left)).getD (r - top) []).length →
      keyInGrid g.codeArray.shape (0 + (r - top) + top, 0 + i + left,
        g.table) = true := by
    intro i hi
    rw [hcjlen] at hi
    refine keyInGrid_iff.mpr ⟨?_, ?_, ?_⟩
    · show 0 + (r - top) + top < g.codeArray.shape.1
      omega
    · show 0 + i + left < g.codeArray.shape.2.1
      omega
    · show g.table < g.codeArray.shape.2.2
      exact htab
  have hmain := pasteRowsLoop_get g.codeArray.shape g.table top left
    (copyLines g.codeArray.cells g.table top left (bottom + 1 - top)
      (right + 1 - left)) 0 g.codeArray.cells (r - top) (c - left) hj hrows
    hcj hcols
  rw [show 0 + (r - top) + top = r from by omega,
    show 0 + (c - left) + left = c from by omega] at hmain
  simp only [Workflows_paste_to_current]
  rw [harg1, harg2, harg3, hparse, hmain, hgdj,
    getD_map_range _ (by omega : c - left < right + 1 - left) _,
    show top + (r - top) = r from by omega,
    show left + (c - left) = c from by omega, hcodeEq, Option.getD_some,
    replaceChar_leftInverse hffFree]

/-- A demo grid for the copy/paste round trip: a fully selected 2×2 block
whose top-left cell's code contains an embedded newline. -/
def demoCopyGrid : GridState :=
  { codeArray := { demoCA with
      cells := [((0, 0, 0), ['x', '\n', 'y']), ((0, 1, 0), ['b']),
        ((1, 0, 0), ['c']), ((1, 1, 0), ['d'])] },
    table := 0,
    current := (0, 0, 0),
    selection := ⟨[(0, 0)], [(1, 1)], [], [], []⟩,
    maxShape := (5, 5, 2) }

/-- Witness for C9: pasting the copied 2×2 block back at its own top-left
restores the codes, including the embedded newline. -/
theorem copy_paste_roundtrip_witness :
    alGet (Workflows_paste_to_current demoCopyGrid
        (Workflows_edit_copy demoCopyGrid)).codeArray.cells (0, 0, 0) =
      some ['x', '\n', 'y'] ∧
    alGet (Workflows_paste_to_current demoCopyGrid
        (Workflows_edit_copy demoCopyGrid)).codeArray.cells (1, 1, 0) =
      some ['d'] := by
  have h := copy_paste_roundtrip demoCopyGrid 0 0 1 1 rfl (by decide)
    (by decide) rfl (by decide) (by decide) (by decide) ?hcode
  case hcode =>
    intro r c h1 h2 h3 h4
    interval_cases r <;> interval_cases c <;>
      exact ⟨_, rfl, by decide, by decide⟩
  constructor
  · have h0 := h 0 0 (by decide) (by decide) (by decide) (by decide)
    exact h0.trans rfl
  · have h1 := h 1 1 (by decide) (by decide) (by decide) (by decide)
    exact h1.trans rfl
